import Mathlib

/-!
Verification of the namespace mapping engine (`mongo_connector/dest_mapping.py`)
and the checkpoint store (`mongo_connector/oplog_progress.py`).

Python state is embedded shallowly: dictionaries become insertion-ordered
association lists, Python exceptions become `Except PyErr`, and the anchored
regular expressions built by `DestMapping.match` are embedded as token lists
over the namespace alphabet (where `.` matches any character, `$` asserts
end-of-string as in Python's `re`, and each `*` of the original namespace
pattern becomes a greedy capturing group).  An operation that raises is
modelled as returning `Except.error`; the claims examined here never inspect
the partially-mutated state Python leaves behind after an exception.
-/

namespace MongoConnector

/-- Python exceptions that the modelled code can raise. -/
inductive PyErr
  | invalidConfiguration
  | indexError
  | typeError
  | valueError
deriving DecidableEq, Repr

/-! ### Insertion-ordered dictionaries as association lists -/

/-- `d.get(k)`: first binding of `k`, if any. -/
def alGet [DecidableEq κ] : List (κ × α) → κ → Option α
  | [], _ => none
  | (k', v) :: rest, k => if k' = k then some v else alGet rest k

/-- `d[k] = v`: replace the binding in place if present, else append. -/
def alInsert [DecidableEq κ] : List (κ × α) → κ → α → List (κ × α)
  | [], k, v => [(k, v)]
  | (k', v') :: rest, k, v =>
    if k' = k then (k, v) :: rest else (k', v') :: alInsert rest k v

/-! ### The anchored patterns built by `DestMapping.match`

`match` builds `r"\A" + wildcard_ns.replace('*', group) + r"\Z"` where `group`
is `([^.]*)` when the `*` occurs before the first `.` of the pattern and
`(.*)` otherwise, and matches it against the source string with `re.match`.
In the resulting regex a literal `.` of the namespace matches any character
and a literal `$` (from `$cmd`) asserts end-of-string (Python `$` also
matches just before a trailing newline). -/

inductive RTok
  /-- an ordinary character, matched literally -/
  | lit (c : Char)
  /-- a `.` of the namespace: regex `.`, matches any one character -/
  | dot
  /-- a `$` of the namespace: regex `$`, end-of-string assertion -/
  | dollar
  /-- a `*` of the namespace: greedy capturing group `(.*)` or `([^.]*)` -/
  | star (allowDot : Bool)
deriving DecidableEq, Repr

/-- Python `str.find`: index of the first occurrence, `-1` if absent. -/
def pyFind (s : String) (c : Char) : Int :=
  match s.data.findIdx? (· = c) with
  | some i => (i : Int)
  | none => -1

/-- Compile a namespace pattern to regex tokens, as `DestMapping.match` does:
the capture group forbids `.` exactly when the `*` occurs before the first
`.` of the pattern. -/
def compileNs (ns : String) : List RTok :=
  let allowDot : Bool := ¬ (pyFind ns '*' < pyFind ns '.')
  ns.data.map fun c =>
    if c = '*' then .star allowDot
    else if c = '.' then .dot
    else if c = '$' then .dollar
    else .lit c

/-- Try capture lengths `i, i-1, …, 0` for a greedy group: `next` matches the
tokens after the group against what remains after the candidate capture. -/
def tryLens (next : List Char → Option (List String)) : Nat → List Char → Option (List String)
  | i, s =>
    match next (s.drop i) with
    | some gs => some (⟨s.take i⟩ :: gs)
    | none =>
      match i with
      | 0 => none
      | i' + 1 => tryLens next i' s

/-- Anchored matching of a token list against a character list, returning the
list of captured groups on success.  Greedy `star` backtracks from the longest
permissible capture, as Python's `re` does. -/
def rmatch : List RTok → List Char → Option (List String)
  | [], s => if s = [] then some [] else none
  | .lit c :: ts, s =>
    match s with
    | [] => none
    | d :: ds => if d = c then rmatch ts ds else none
  | .dot :: ts, s =>
    match s with
    | [] => none
    | _ :: ds => rmatch ts ds
  | .dollar :: ts, s =>
    if s = [] ∨ s = ['\n'] then rmatch ts s else none
  | .star allowDot :: ts, s =>
    let limit := if allowDot then s else s.takeWhile (· ≠ '.')
    tryLens (rmatch ts) limit.length s

/-- `DestMapping.match`: match a plain source string against a wildcard
pattern; `some groups` plays the role of the Python match object. -/
def nsMatch (src wildcard_ns : String) : Option (List String) :=
  rmatch (compileNs wildcard_ns) src.data

/-- `str.replace("*", g)` at the character level: every `*` of the pattern
is replaced by `g`. -/
def replaceStar (g : List Char) : List Char → List Char
  | [] => []
  | c :: rest => if c = '*' then g ++ replaceStar g rest else c :: replaceStar g rest

/-- `DestMapping.replace`: substitute capture group 1 for every `*` of
`map_pattern`.  When the pattern had no group (no `*`), Python's
`group(1)` raises `IndexError`. -/
def nsReplace (groups : List String) (map_pattern : String) : Except PyErr String :=
  match groups with
  | [] => .error .indexError
  | g :: _ => .ok ⟨replaceStar g.data map_pattern.data⟩

/-- `DestMapping.match_set`: literal membership, else wildcard match for the
entries containing a `*`. -/
def match_set (plain_src : String) (dst_arr : List String) : Bool :=
  dst_arr.any fun x =>
    plain_src = x || ('*' ∈ x.data && (nsMatch plain_src x).isSome)

/-! ### DestMapping -/

/-- The `MappedNamespace` named tuple. -/
structure MappedNamespace where
  name : String
  include_fields : Option (List String) := none
  exclude_fields : Option (List String) := none
deriving DecidableEq, Repr

/-- Python truthiness of an optional list (`None` and `[]` are falsy). -/
def optTruthy : Option (List α) → Bool
  | some (_ :: _) => true
  | _ => false

/-- `s.split(".", 1)` destructured into two parts; `none` when `s` has no `.`
(in which case the Python two-target unpacking raises `ValueError`). -/
def splitFirstDot (s : String) : Option (String × String) :=
  match s.data.findIdx? (· = '.') with
  | none => none
  | some i => some (⟨s.data.take i⟩, ⟨s.data.drop (i + 1)⟩)

/-- `s.split(".")[0]`: the part before the first `.` (all of `s` if none). -/
def beforeFirstDot (s : String) : String :=
  ⟨s.data.takeWhile (· ≠ '.')⟩

/-- Membership-insert into a Python `set` modelled as a list. -/
def setAdd (l : List String) (x : String) : List String :=
  if x ∈ l then l else l ++ [x]

/-- The mutable state of a `DestMapping`. -/
structure DestMapping where
  plain : List (String × MappedNamespace) := []
  wildcard : List (String × MappedNamespace) := []
  reverse_plain : List (String × String) := []
  plain_db : List (String × List String) := []
  include_fields : Option (List String) := none
  exclude_fields : Option (List String) := none
  namespace_set : List String := []
  ex_namespace_set : List String := []
deriving DecidableEq, Repr

/-- `DestMapping.set_plain`.  Python performs the dictionary updates before
the `src_name.split(".", 1)` that raises `ValueError` on a dot-less source;
the claims never examine post-exception state, so the error simply discards
the update here.  The conflict check uses Python truthiness: an existing
reverse entry equal to the empty string is falsy and does not raise. -/
def set_plain (m : DestMapping) (src_name : String) (mapped_namespace : MappedNamespace) :
    Except PyErr DestMapping :=
  let target_name := mapped_namespace.name
  let conflict : Bool :=
    match alGet m.reverse_plain target_name with
    | some existing_src => existing_src != "" && existing_src != src_name
    | none => false
  if conflict then .error .invalidConfiguration
  else
    match splitFirstDot src_name with
    | none => .error .valueError
    | some (src_db, src_col) =>
      let plain_db' :=
        if src_col ≠ "$cmd" then
          let target_db := beforeFirstDot target_name
          match alGet m.plain_db src_db with
          | some s => alInsert m.plain_db src_db (setAdd s target_db)
          | none => m.plain_db ++ [(src_db, [target_db])]
        else m.plain_db
      .ok { m with
              plain := alInsert m.plain src_name mapped_namespace,
              reverse_plain := alInsert m.reverse_plain target_name src_name,
              plain_db := plain_db' }

/-- `DestMapping.set`: wildcard sources go to `wildcard`, plain sources to
`set_plain`; on success the source is recorded in `namespace_set`. -/
def DestMapping.set (m : DestMapping) (src_name : String) (mapped_namespace : MappedNamespace) :
    Except PyErr DestMapping :=
  match (if '*' ∈ src_name.data then
          .ok { m with wildcard := alInsert m.wildcard src_name mapped_namespace }
         else
          set_plain m src_name mapped_namespace : Except PyErr DestMapping) with
  | .error e => .error e
  | .ok m' => .ok { m' with namespace_set := setAdd m'.namespace_set src_name }

/-- The wildcard-scanning loop of `DestMapping.get`: first matching wildcard
entry wins, its resolution is learned through `set_plain`, and any exception
raised by the learning step propagates. -/
def getScan (m : DestMapping) (plain_src_ns : String) :
    List (String × MappedNamespace) → Except PyErr (DestMapping × Option MappedNamespace)
  | [] => .ok (m, none)
  | (wildcard_name, mapped) :: rest =>
    match nsMatch plain_src_ns wildcard_name with
    | none => getScan m plain_src_ns rest
    | some groups =>
      match nsReplace groups mapped.name with
      | .error e => .error e
      | .ok new_name =>
        match set_plain m plain_src_ns
            ⟨new_name, mapped.include_fields, mapped.exclude_fields⟩ with
        | .error e => .error e
        | .ok m' => .ok (m', some ⟨new_name, mapped.include_fields, mapped.exclude_fields⟩)

/-- `DestMapping.get`: resolve a plain source namespace, returning the
(possibly mutated, due to learning) state together with the mapped namespace
or `none`. -/
def DestMapping.get (m : DestMapping) (plain_src_ns : String) :
    Except PyErr (DestMapping × Option MappedNamespace) :=
  if match_set plain_src_ns m.ex_namespace_set then .ok (m, none)
  else if m.wildcard = [] ∧ m.plain = [] then
    .ok (m, some ⟨plain_src_ns, none, none⟩)
  else
    match alGet m.plain plain_src_ns with
    | some mapped => .ok (m, some mapped)
    | none => getScan m plain_src_ns m.wildcard

/-- The wildcard-scanning loop of `DestMapping.unmap_namespace`: each entry's
target pattern is the matchable side and its source pattern the substitution
template. -/
def unmapScan (plain_mapped_ns : String) :
    List (String × MappedNamespace) → Except PyErr (Option String)
  | [] => .ok none
  | (wildcard_src_name, mapped) :: rest =>
    match nsMatch plain_mapped_ns mapped.name with
    | none => unmapScan plain_mapped_ns rest
    | some groups => (nsReplace groups wildcard_src_name).map some

/-- `DestMapping.unmap_namespace`.  The `if src_name:` test of the source is
Python truthiness, hence the explicit empty-string check. -/
def DestMapping.unmap_namespace (m : DestMapping) (plain_mapped_ns : String) :
    Except PyErr (Option String) :=
  if m.wildcard = [] ∧ m.plain = [] then .ok (some plain_mapped_ns)
  else
    match alGet m.reverse_plain plain_mapped_ns with
    | some src_name =>
      if src_name ≠ "" then .ok (some src_name)
      else unmapScan plain_mapped_ns m.wildcard
    | none => unmapScan plain_mapped_ns m.wildcard

/-- `DestMapping.map_namespace`. -/
def DestMapping.map_namespace (m : DestMapping) (plain_src_ns : String) :
    Except PyErr (DestMapping × Option String) :=
  match m.get plain_src_ns with
  | .error e => .error e
  | .ok (m', mapped) => .ok (m', mapped.map (·.name))

/-- `DestMapping.map_db`: with no mapping configuration, identity; otherwise
look up `db + ".$cmd"` and return the `plain_db` fan-out for `db`. -/
def DestMapping.map_db (m : DestMapping) (plain_src_db : String) :
    Except PyErr (DestMapping × List String) :=
  if m.wildcard = [] ∧ m.plain = [] then .ok (m, [plain_src_db])
  else
    match m.get (plain_src_db ++ ".$cmd") with
    | .error e => .error e
    | .ok (m', _) => .ok (m', (alGet m'.plain_db plain_src_db).getD [])

/-- `DestMapping.fields`: the resolved namespace's own field lists, `(None,
None)` when the namespace resolves to absent. -/
def DestMapping.fields (m : DestMapping) (plain_src_ns : String) :
    Except PyErr (DestMapping × Option (List String) × Option (List String)) :=
  match m.get plain_src_ns with
  | .error e => .error e
  | .ok (m', some mp) => .ok (m', mp.include_fields, mp.exclude_fields)
  | .ok (m', none) => .ok (m', none, none)

/-- `DestMapping.projection`: build the mandatory projection from the
resolved field lists (`include_fields or exclude_fields`, Python truthiness),
let the caller's projection override on key collision, and fall back to the
caller's projection when there is no mandatory field set. -/
def DestMapping.projection (m : DestMapping) (plain_src_name : String)
    (projection : Option (List (String × Nat))) :
    Except PyErr (DestMapping × Option (List (String × Nat))) :=
  match m.fields plain_src_name with
  | .error e => .error e
  | .ok (m', include_fields, exclude_fields) =>
    let incl : Nat := if optTruthy include_fields then 1 else 0
    let flds := if optTruthy include_fields then include_fields else exclude_fields
    match flds with
    | some (f :: fs) =>
      let full := (f :: fs).foldl (fun acc fld => alInsert acc fld incl) []
      let full :=
        match projection with
        | some p => p.foldl (fun acc kv => alInsert acc kv.1 kv.2) full
        | none => full
      .ok (m', some full)
    | _ => .ok (m', projection)

/-! ### Construction -/

/-- A value of the `user_mapping` table: either a plain rename string or a
`{rename, fields, excludeFields}` descriptor. -/
inductive MappingValue
  | plainStr (s : String)
  | descriptor (rename : Option String) (fields : Option (List String))
      (excludeFields : Option (List String))
deriving DecidableEq, Repr

/-- `DestMapping._add_mapping`: validate field scopes (Python truthiness),
register the mapping, then register the companion `$cmd` mapping. -/
def _add_mapping (m : DestMapping) (src_name : String) (dest_name : Option String)
    (include_fields exclude_fields : Option (List String)) : Except PyErr DestMapping :=
  if (optTruthy m.include_fields && optTruthy exclude_fields) ||
     (optTruthy m.exclude_fields && optTruthy include_fields) ||
     (optTruthy include_fields && optTruthy exclude_fields) then
    .error .invalidConfiguration
  else
    let dest := dest_name.getD src_name
    match m.set src_name ⟨dest, include_fields, exclude_fields⟩ with
    | .error e => .error e
    | .ok m₁ =>
      m₁.set (beforeFirstDot src_name ++ ".$cmd")
        ⟨beforeFirstDot dest ++ ".$cmd", none, none⟩

/-- `DestMapping.__init__`: seed `user_mapping` with identity entries for the
namespace set (`setdefault`, preserving insertion order), then add every
mapping in order. -/
def mkDestMapping (namespace_set : List String) (ex_namespace_set : List String)
    (user_mapping : List (String × MappingValue))
    (include_fields exclude_fields : Option (List String)) : Except PyErr DestMapping :=
  let base : DestMapping :=
    { include_fields := include_fields, exclude_fields := exclude_fields,
      ex_namespace_set := ex_namespace_set }
  let um := namespace_set.foldl
    (fun acc ns => if (alGet acc ns).isSome then acc else acc ++ [(ns, .plainStr ns)])
    user_mapping
  um.foldlM
    (fun m kv =>
      match kv.2 with
      | .plainStr s => _add_mapping m kv.1 (some s) none none
      | .descriptor r f ef => _add_mapping m kv.1 r f ef)
    base

/-! ### OplogProgress

The checkpoint file is modelled at the JSON level: `json.dumps`/`json.load`
become the identity on a `JValue`, an unparseable file is `FileContent.invalidJson`
and a zero-length file is `FileContent.emptyFile`.  Checkpoint-table keys are
modelled as `JValue` (Python dict keys can be any hashable value; an
unhashable list key raises `TypeError`). -/

/-- A parsed JSON value as far as the checkpoint code distinguishes them. -/
inductive JValue
  | jnum (n : Int)
  | jstr (s : String)
  | jarr (l : List JValue)
deriving Repr

mutual

def JValue.decEq : (a b : JValue) → Decidable (a = b)
  | .jnum a, .jnum b =>
    match Int.decEq a b with
    | isTrue h => isTrue (by rw [h])
    | isFalse h => isFalse (fun hh => by cases hh; exact h rfl)
  | .jstr a, .jstr b =>
    match String.decEq a b with
    | isTrue h => isTrue (by rw [h])
    | isFalse h => isFalse (fun hh => by cases hh; exact h rfl)
  | .jarr a, .jarr b =>
    match JValue.decEqList a b with
    | isTrue h => isTrue (by rw [h])
    | isFalse h => isFalse (fun hh => by cases hh; exact h rfl)
  | .jnum _, .jstr _ => isFalse (fun h => JValue.noConfusion h)
  | .jnum _, .jarr _ => isFalse (fun h => JValue.noConfusion h)
  | .jstr _, .jnum _ => isFalse (fun h => JValue.noConfusion h)
  | .jstr _, .jarr _ => isFalse (fun h => JValue.noConfusion h)
  | .jarr _, .jnum _ => isFalse (fun h => JValue.noConfusion h)
  | .jarr _, .jstr _ => isFalse (fun h => JValue.noConfusion h)

def JValue.decEqList : (a b : List JValue) → Decidable (a = b)
  | [], [] => isTrue rfl
  | [], _ :: _ => isFalse (fun h => List.noConfusion h)
  | _ :: _, [] => isFalse (fun h => List.noConfusion h)
  | x :: xs, y :: ys =>
    match JValue.decEq x y with
    | isFalse h => isFalse (fun hh => by cases hh; exact h rfl)
    | isTrue h1 =>
      match JValue.decEqList xs ys with
      | isTrue h2 => isTrue (by rw [h1, h2])
      | isFalse h2 => isFalse (fun hh => by cases hh; exact h2 rfl)

end

instance : DecidableEq JValue := JValue.decEq

/-- Whether a value is a Python `list` (also: unhashable). -/
def JValue.isArr : JValue → Bool
  | .jarr _ => true
  | _ => false

/-- A BSON timestamp: seconds and per-second counter. -/
structure Timestamp where
  time : Nat
  inc : Nat
deriving DecidableEq, Repr

/-- Modelled from the spec: `util.bson_ts_to_long` is not under `src/`; the
spec states the position is encoded as a single integer with the epoch
seconds in the high 32 bits and the per-second counter in the low 32 bits. -/
def bson_ts_to_long (ts : Timestamp) : Int :=
  (ts.time : Int) * 4294967296 + (ts.inc : Int)

/-- Modelled from the spec: `util.long_to_bson_ts` is not under `src/`; it
decodes the high 32 bits as the seconds and the low 32 bits as the counter. -/
def long_to_bson_ts (val : Int) : Timestamp :=
  ⟨val.toNat / 4294967296, val.toNat % 4294967296⟩

/-- The contents of the oplog progress file. -/
inductive FileContent
  | emptyFile
  | invalidJson
  | jsonData (v : JValue)
deriving DecidableEq, Repr

/-- The state of an `OplogProgress`: whether a progress file is configured,
and the in-memory checkpoint table (a dict in insertion order). -/
structure OplogProgress where
  hasFile : Bool
  dict : List (JValue × Timestamp)
deriving DecidableEq, Repr

/-- `data[0]` on a parsed JSON value: `IndexError` on an empty list or
string, `TypeError` on an integer; indexing a string yields its first
character as a one-character string. -/
def jIndex0 : JValue → Except PyErr JValue
  | .jarr [] => .error .indexError
  | .jarr (x :: _) => .ok x
  | .jstr s =>
    match s.data with
    | [] => .error .indexError
    | c :: _ => .ok (.jstr ⟨[c]⟩)
  | .jnum _ => .error .typeError

/-- One iteration of `for name, timestamp in data: self.dict[name] = long_to_bson_ts(timestamp)`:
unpacking a non-pair raises `ValueError`, a non-integer timestamp makes
`long_to_bson_ts` raise `TypeError`, and an unhashable (list) name raises
`TypeError` at the dict assignment.  A two-character string unpacks into its
two characters, whose second is a string, hence `TypeError`. -/
def parsePair : JValue → Except PyErr (JValue × Timestamp)
  | .jarr [n, t] =>
    match t with
    | .jnum x => if n.isArr then .error .typeError else .ok (n, long_to_bson_ts x)
    | _ => .error .typeError
  | .jarr _ => .error .valueError
  | .jnum _ => .error .typeError
  | .jstr s =>
    match s.data with
    | [_, _] => .error .typeError
    | _ => .error .valueError

/-- `OplogProgress.init`: read the progress file.  `none` content stands for
a missing file (the `OSError` path); empty and unparseable files are
tolerated; otherwise the single-pair legacy form is wrapped into a
one-element list and each pair is loaded into the table. -/
def OplogProgress.init (p : OplogProgress) (content : Option FileContent) :
    Except PyErr OplogProgress :=
  if ¬ p.hasFile then .ok p
  else
    match content with
    | none => .ok p
    | some .emptyFile => .ok p
    | some .invalidJson => .ok p
    | some (.jsonData data) =>
      match jIndex0 data with
      | .error e => .error e
      | .ok d0 =>
        let rows : List JValue :=
          if d0.isArr then
            match data with
            | .jarr l => l
            | _ => [data]
          else [data]
        match rows.mapM parsePair with
        | .error e => .error e
        | .ok pairs =>
          .ok { p with dict := pairs.foldl (fun acc nv => alInsert acc nv.1 nv.2) p.dict }

/-- `OplogProgress.save`: the file content written, or `none` when nothing is
written (no file configured, or the table is empty).  A single entry is
serialized in the legacy single-pair form. -/
def OplogProgress.save (p : OplogProgress) : Option FileContent :=
  if ¬ p.hasFile then none
  else
    let items := p.dict.map fun nts => JValue.jarr [nts.1, .jnum (bson_ts_to_long nts.2)]
    match items with
    | [] => none
    | [x] => some (.jsonData x)
    | xs => some (.jsonData (.jarr xs))

/-! ### The reverse-mapping invariant -/

/-- The claimed invariant: every key/value pair of `plain` is reflected in
`reverse_plain`, i.e. `reverse_plain[value.name] == key`. -/
def reverse_invariant (m : DestMapping) : Prop :=
  ∀ p ∈ m.plain, alGet m.reverse_plain (Prod.snd p).name = some p.1

/-- Auxiliary well-formedness: `reverse_plain` never records the empty string
as a source namespace (`set_plain` only succeeds for sources containing a
dot, which are nonempty). -/
def wf_sources (m : DestMapping) : Prop :=
  ∀ p ∈ m.reverse_plain, Prod.snd p ≠ ""

instance (m : DestMapping) : Decidable (reverse_invariant m) := by
  unfold reverse_invariant; infer_instance

instance (m : DestMapping) : Decidable (wf_sources m) := by
  unfold wf_sources; infer_instance

deriving instance DecidableEq for Except

/-- Extract the state from a construction that is known to succeed. -/
def okOr (e : Except PyErr DestMapping) (d : DestMapping) : DestMapping :=
  match e with
  | .ok m => m
  | .error _ => d

/-- Extract the post-state of a resolving operation known to succeed. -/
def okFst (e : Except PyErr (DestMapping × α)) (d : DestMapping) : DestMapping :=
  match e with
  | .ok (m, _) => m
  | .error _ => d

def c6M : DestMapping :=
  okOr (mkDestMapping ["db1.col1", "db1.col2"] [] [] none none) {}

def c7M : DestMapping :=
  okOr (mkDestMapping [] [] [("db_*.foo", .plainStr "db_new_*.foo")] none none) {}

def c7M' : DestMapping := okFst (c7M.get "db_123.foo") {}

def c5M : DestMapping := okOr (mkDestMapping [] [] [("a.b", .plainStr "t.c")] none none) {}

def c10M : DestMapping :=
  okOr (mkDestMapping [] [] [("db.*", .plainStr "other.fixed")] none none) {}

def c1M : DestMapping :=
  okOr (mkDestMapping ["db.*"] [] [] (some ["foo", "nested.field"]) none) {}

def c2M : DestMapping := okOr (mkDestMapping [] ["ex.*"] [] none none) {}

def c3M : DestMapping :=
  okOr (mkDestMapping [] [] [("db_*.foo", .plainStr "db_new_*.foo")] none none) {}

/-! ### Theorems -/

theorem alGet_mem [DecidableEq κ] {l : List (κ × α)} {k : κ} {v : α}
    (h : alGet l k = some v) : (k, v) ∈ l := by
  induction l with
  | nil => simp [alGet] at h
  | cons p rest ih =>
    obtain ⟨k', v'⟩ := p
    by_cases hk : k' = k
    · subst hk
      simp [alGet] at h
      simp [h]
    · simp [alGet, hk] at h
      exact List.mem_cons_of_mem _ (ih h)

theorem alGet_alInsert_self [DecidableEq κ] (l : List (κ × α)) (k : κ) (v : α) :
    alGet (alInsert l k v) k = some v := by
  induction l with
  | nil => simp [alInsert, alGet]
  | cons p rest ih =>
    obtain ⟨k', v'⟩ := p
    by_cases hk : k' = k
    · subst hk; simp [alInsert, alGet]
    · simp [alInsert, alGet, hk, ih]

theorem alGet_alInsert_ne [DecidableEq κ] (l : List (κ × α)) (k k' : κ) (v : α)
    (h : k ≠ k') : alGet (alInsert l k v) k' = alGet l k' := by
  induction l with
  | nil => simp [alInsert, alGet, h]
  | cons p rest ih =>
    obtain ⟨k₀, v₀⟩ := p
    by_cases hk : k₀ = k
    · subst hk; simp [alInsert, alGet, h]
    · simp only [alInsert, if_neg hk]
      by_cases hk' : k₀ = k'
      · subst hk'; simp [alGet]
      · simp [alGet, hk', ih]

theorem mem_alInsert [DecidableEq κ] {l : List (κ × α)} {k : κ} {v : α} {p : κ × α}
    (h : p ∈ alInsert l k v) : p = (k, v) ∨ p ∈ l := by
  induction l with
  | nil => simpa [alInsert] using h
  | cons q rest ih =>
    obtain ⟨k', v'⟩ := q
    by_cases hk : k' = k
    · subst hk
      simp only [alInsert, if_pos rfl] at h
      rcases List.mem_cons.mp h with h | h
      · exact Or.inl h
      · exact Or.inr (List.mem_cons_of_mem _ h)
    · simp only [alInsert, if_neg hk] at h
      rcases List.mem_cons.mp h with h | h
      · exact Or.inr (by simp [h])
      · rcases ih h with h | h
        · exact Or.inl h
        · exact Or.inr (List.mem_cons_of_mem _ h)

theorem alInsert_ne_nil [DecidableEq κ] (l : List (κ × α)) (k : κ) (v : α) :
    alInsert l k v ≠ [] := by
  cases l with
  | nil => simp [alInsert]
  | cons p rest =>
    obtain ⟨k', v'⟩ := p
    by_cases hk : k' = k <;> simp [alInsert, hk]

theorem exBindOk (a : α) (f : α → Except PyErr β) :
    (Except.ok a >>= f) = f a := rfl

theorem exBindErr (e : PyErr) (f : α → Except PyErr β) :
    ((Except.error e : Except PyErr α) >>= f) = .error e := rfl

theorem splitFirstDot_ne_empty {s : String} {pr : String × String}
    (h : splitFirstDot s = some pr) : s ≠ "" := by
  intro he
  subst he
  simp [splitFirstDot, List.findIdx?] at h

/-- What a successful `set_plain` tells us: the target was free (or already
pointed at this source, or at the falsy empty string), the source contains a
dot, and the two dictionaries are updated in lockstep. -/
theorem set_plain_ok_cases {m : DestMapping} {src : String} {mp : MappedNamespace}
    {m' : DestMapping} (h : set_plain m src mp = .ok m') :
    (alGet m.reverse_plain mp.name = none ∨ alGet m.reverse_plain mp.name = some "" ∨
      alGet m.reverse_plain mp.name = some src) ∧
    src ≠ "" ∧
    m'.plain = alInsert m.plain src mp ∧
    m'.reverse_plain = alInsert m.reverse_plain mp.name src ∧
    m'.wildcard = m.wildcard := by
  simp only [set_plain] at h
  rcases hrg : alGet m.reverse_plain mp.name with _ | ex
  all_goals rw [hrg] at h
  · simp only [Bool.false_eq_true, if_false] at h
    cases hsp : splitFirstDot src
    all_goals rw [hsp] at h
    · cases h
    · next pr =>
      obtain ⟨db, col⟩ := pr
      simp only [Except.ok.injEq] at h
      subst h
      exact ⟨Or.inl rfl, splitFirstDot_ne_empty hsp, rfl, rfl, rfl⟩
  · by_cases hb : (ex != "" && ex != src) = true
    · rw [if_pos hb] at h; cases h
    · rw [if_neg hb] at h
      cases hsp : splitFirstDot src
      all_goals rw [hsp] at h
      · cases h
      · next pr =>
        obtain ⟨db, col⟩ := pr
        simp only [Except.ok.injEq] at h
        subst h
        refine ⟨?_, splitFirstDot_ne_empty hsp, rfl, rfl, rfl⟩
        simp only [Bool.and_eq_true, bne_iff_ne, ne_eq, not_and_or, not_not] at hb
        rcases hb with hb | hb
        · exact Or.inr (Or.inl (by rw [hb]))
        · exact Or.inr (Or.inr (by rw [hb]))

theorem set_plain_preserves {m : DestMapping} {src : String} {mp : MappedNamespace}
    {m' : DestMapping} (hr : reverse_invariant m) (hw : wf_sources m)
    (h : set_plain m src mp = .ok m') : reverse_invariant m' ∧ wf_sources m' := by
  obtain ⟨hcases, hsrc, hpl, hrp, -⟩ := set_plain_ok_cases h
  have hget : alGet m.reverse_plain mp.name = none ∨
      alGet m.reverse_plain mp.name = some src := by
    rcases hcases with h0 | h0 | h0
    · exact Or.inl h0
    · exact absurd rfl (hw _ (alGet_mem h0))
    · exact Or.inr h0
  constructor
  · intro p hp
    rw [hpl] at hp
    rcases mem_alInsert hp with rfl | hp'
    · rw [hrp]
      exact alGet_alInsert_self ..
    · have hold := hr p hp'
      by_cases hname : (Prod.snd p).name = mp.name
      · rw [hname] at hold
        rcases hget with h0 | h0
        · rw [h0] at hold; cases hold
        · rw [h0] at hold
          have hps : p.1 = src := by
            injection hold.symm
          rw [hrp, hname, hps]
          exact alGet_alInsert_self ..
      · rw [hrp, alGet_alInsert_ne _ _ _ _ (fun hh => hname hh.symm)]
        exact hold
  · intro p hp
    rw [hrp] at hp
    rcases mem_alInsert hp with rfl | hp'
    · exact hsrc
    · exact hw p hp'

theorem set_preserves {m : DestMapping} {src : String} {mp : MappedNamespace}
    {m' : DestMapping} (hr : reverse_invariant m) (hw : wf_sources m)
    (h : m.set src mp = .ok m') : reverse_invariant m' ∧ wf_sources m' := by
  unfold DestMapping.set at h
  by_cases hc : '*' ∈ src.data
  · rw [if_pos hc] at h
    simp only [Except.ok.injEq] at h
    subst h
    exact ⟨fun p hp => hr p hp, fun p hp => hw p hp⟩
  · rw [if_neg hc] at h
    cases hsp : set_plain m src mp
    all_goals rw [hsp] at h
    · cases h
    · next m₂ =>
      simp only [Except.ok.injEq] at h
      subst h
      obtain ⟨h1, h2⟩ := set_plain_preserves hr hw hsp
      exact ⟨fun p hp => h1 p hp, fun p hp => h2 p hp⟩

theorem getScan_preserves {m : DestMapping} {ns : String} {m' : DestMapping}
    {r : Option MappedNamespace} (hr : reverse_invariant m) (hw : wf_sources m) :
    ∀ ws, getScan m ns ws = .ok (m', r) → reverse_invariant m' ∧ wf_sources m' := by
  intro ws
  induction ws with
  | nil =>
    intro h
    simp only [getScan, Except.ok.injEq, Prod.mk.injEq] at h
    rw [← h.1]
    exact ⟨hr, hw⟩
  | cons e rest ih =>
    intro h
    obtain ⟨w, mapped⟩ := e
    simp only [getScan] at h
    cases hm : nsMatch ns w
    all_goals simp only [hm] at h
    · exact ih h
    · next groups =>
      cases hrep : nsReplace groups mapped.name
      all_goals simp only [hrep] at h
      · cases h
      · next nn =>
        cases hsp : set_plain m ns ⟨nn, mapped.include_fields, mapped.exclude_fields⟩
        all_goals simp only [hsp] at h
        · cases h
        · next m₂ =>
          simp only [Except.ok.injEq, Prod.mk.injEq] at h
          rw [← h.1]
          exact set_plain_preserves hr hw hsp

theorem get_preserves {m : DestMapping} {ns : String} {m' : DestMapping}
    {r : Option MappedNamespace} (hr : reverse_invariant m) (hw : wf_sources m)
    (h : m.get ns = .ok (m', r)) : reverse_invariant m' ∧ wf_sources m' := by
  unfold DestMapping.get at h
  by_cases he : match_set ns m.ex_namespace_set = true
  · rw [if_pos he] at h
    simp only [Except.ok.injEq, Prod.mk.injEq] at h
    rw [← h.1]
    exact ⟨hr, hw⟩
  · rw [if_neg he] at h
    by_cases hn : m.wildcard = [] ∧ m.plain = []
    · rw [if_pos hn] at h
      simp only [Except.ok.injEq, Prod.mk.injEq] at h
      rw [← h.1]
      exact ⟨hr, hw⟩
    · rw [if_neg hn] at h
      cases hp : alGet m.plain ns
      all_goals rw [hp] at h
      · exact getScan_preserves hr hw _ h
      · simp only [Except.ok.injEq, Prod.mk.injEq] at h
        rw [← h.1]
        exact ⟨hr, hw⟩

theorem add_mapping_preserves {m : DestMapping} {src : String} {dn : Option String}
    {fi fe : Option (List String)} {m' : DestMapping}
    (hr : reverse_invariant m) (hw : wf_sources m)
    (h : _add_mapping m src dn fi fe = .ok m') : reverse_invariant m' ∧ wf_sources m' := by
  unfold _add_mapping at h
  split at h
  · cases h
  · cases hs : m.set src ⟨dn.getD src, fi, fe⟩
    all_goals simp only [hs] at h
    · cases h
    · next m₁ =>
      obtain ⟨h1, h2⟩ := set_preserves hr hw hs
      exact set_preserves h1 h2 h

theorem foldlM_add_preserves {step : DestMapping → String × MappingValue → Except PyErr DestMapping}
    (hstep : ∀ b a b', reverse_invariant b → wf_sources b → step b a = .ok b' →
      reverse_invariant b' ∧ wf_sources b') :
    ∀ (l : List (String × MappingValue)) (b b' : DestMapping),
      reverse_invariant b → wf_sources b → l.foldlM step b = .ok b' →
      reverse_invariant b' ∧ wf_sources b' := by
  intro l
  induction l with
  | nil =>
    intro b b' hb hw h
    simp only [List.foldlM_nil] at h
    cases h
    exact ⟨hb, hw⟩
  | cons x xs ih =>
    intro b b' hb hw h
    rw [List.foldlM_cons] at h
    cases hs : step b x
    all_goals rw [hs] at h
    · rw [exBindErr] at h; cases h
    · next b₁ =>
      rw [exBindOk] at h
      obtain ⟨h1, h2⟩ := hstep b x b₁ hb hw hs
      exact ih b₁ b' h1 h2 h

/-- Construction establishes the invariant. -/
theorem mkDestMapping_establishes {ns ex : List String}
    {um : List (String × MappingValue)} {fi fe : Option (List String)} {m : DestMapping}
    (h : mkDestMapping ns ex um fi fe = .ok m) : reverse_invariant m ∧ wf_sources m := by
  unfold mkDestMapping at h
  refine foldlM_add_preserves ?_ _ _ _ ?_ ?_ h
  · intro b a b' hb hw hstep
    cases ha : a.2
    all_goals rw [ha] at hstep
    · exact add_mapping_preserves hb hw hstep
    · exact add_mapping_preserves hb hw hstep
  · intro p hp
    cases hp
  · intro p hp
    cases hp

/-- A successful `getScan` either found nothing (state unchanged) or learned
exactly one resolution through `set_plain`. -/
theorem getScan_ok {m : DestMapping} {ns : String} {m' : DestMapping}
    {r : Option MappedNamespace} :
    ∀ ws, getScan m ns ws = .ok (m', r) →
      (m' = m ∧ r = none) ∨ ∃ mp, r = some mp ∧ set_plain m ns mp = .ok m' := by
  intro ws
  induction ws with
  | nil =>
    intro h
    simp only [getScan, Except.ok.injEq, Prod.mk.injEq] at h
    exact Or.inl ⟨h.1.symm, h.2.symm⟩
  | cons e rest ih =>
    intro h
    obtain ⟨w, mapped⟩ := e
    simp only [getScan] at h
    cases hm : nsMatch ns w
    all_goals simp only [hm] at h
    · exact ih h
    · next groups =>
      cases hrep : nsReplace groups mapped.name
      all_goals simp only [hrep] at h
      · cases h
      · next nn =>
        cases hsp : set_plain m ns ⟨nn, mapped.include_fields, mapped.exclude_fields⟩
        all_goals simp only [hsp] at h
        · cases h
        · next m₂ =>
          simp only [Except.ok.injEq, Prod.mk.injEq] at h
          refine Or.inr ⟨⟨nn, mapped.include_fields, mapped.exclude_fields⟩, h.2.symm, ?_⟩
          rw [h.1] at hsp
          exact hsp

/-- `rmatch` for a pattern with no capture group captures nothing. -/
theorem rmatch_no_star {ts : List RTok} (hts : ∀ t ∈ ts, ∀ b, t ≠ RTok.star b) :
    ∀ s gs, rmatch ts s = some gs → gs = [] := by
  induction ts with
  | nil =>
    intro s gs h
    simp only [rmatch] at h
    by_cases hs : s = []
    · rw [if_pos hs] at h
      injection h with h
      exact h.symm
    · rw [if_neg hs] at h; cases h
  | cons t ts ih =>
    have hts' : ∀ t ∈ ts, ∀ b, t ≠ RTok.star b :=
      fun u hu => hts u (List.mem_cons_of_mem _ hu)
    intro s gs h
    cases t with
    | lit c =>
      cases s with
      | nil => simp [rmatch] at h
      | cons d ds =>
        simp only [rmatch] at h
        by_cases hd : d = c
        · rw [if_pos hd] at h
          exact ih hts' _ _ h
        · rw [if_neg hd] at h; cases h
    | dot =>
      cases s with
      | nil => simp [rmatch] at h
      | cons d ds =>
        simp only [rmatch] at h
        exact ih hts' _ _ h
    | dollar =>
      simp only [rmatch] at h
      by_cases hs : s = [] ∨ s = ['\n']
      · rw [if_pos hs] at h
        exact ih hts' _ _ h
      · rw [if_neg hs] at h; cases h
    | star b => exact absurd rfl (hts _ (List.mem_cons_self _ _) b)

/-- Compiling a pattern without `*` produces no capture group. -/
theorem compileNs_no_star {p : String} (hp : '*' ∉ p.data) :
    ∀ t ∈ compileNs p, ∀ b, t ≠ RTok.star b := by
  intro t ht b
  simp only [compileNs, List.mem_map] at ht
  obtain ⟨c, hc, rfl⟩ := ht
  have hcs : c ≠ '*' := fun hh => hp (hh ▸ hc)
  simp only [if_neg hcs]
  by_cases h1 : c = '.'
  · simp [h1]
  · by_cases h2 : c = '$' <;> simp [h1, h2]

theorem unmapScan_skip {t : String} {ws₁ : List (String × MappedNamespace)}
    (h1 : ∀ e ∈ ws₁, nsMatch t (Prod.snd e).name = none)
    (ws₂ : List (String × MappedNamespace)) :
    unmapScan t (ws₁ ++ ws₂) = unmapScan t ws₂ := by
  induction ws₁ with
  | nil => rfl
  | cons e rest ih =>
    obtain ⟨w, mapped⟩ := e
    have he := h1 (w, mapped) (List.mem_cons_self _ _)
    simp only [List.cons_append, unmapScan, he]
    exact ih fun x hx => h1 x (List.mem_cons_of_mem _ hx)

/-! ### Claims -/

/-- C6: every operation that can mutate the mapper — construction,
`set_plain`, `set`, and the learning step inside `get` — preserves the
invariant that for every key/value pair of `plain`,
`reverse_plain[value.name] == key` (together with the auxiliary
well-formedness of `reverse_plain` needed to push the invariant through). -/
theorem claim_C6_reverse_plain_invariant :
    (∀ (m : DestMapping) (src : String) (mp : MappedNamespace) (m' : DestMapping),
        reverse_invariant m → wf_sources m → set_plain m src mp = .ok m' →
        reverse_invariant m' ∧ wf_sources m') ∧
    (∀ (m : DestMapping) (src : String) (mp : MappedNamespace) (m' : DestMapping),
        reverse_invariant m → wf_sources m → m.set src mp = .ok m' →
        reverse_invariant m' ∧ wf_sources m') ∧
    (∀ (m : DestMapping) (ns : String) (m' : DestMapping) (r : Option MappedNamespace),
        reverse_invariant m → wf_sources m → m.get ns = .ok (m', r) →
        reverse_invariant m' ∧ wf_sources m') ∧
    (∀ (nss exs : List String) (um : List (String × MappingValue))
        (fi fe : Option (List String)) (m : DestMapping),
        mkDestMapping nss exs um fi fe = .ok m → reverse_invariant m ∧ wf_sources m) :=
  ⟨fun _ _ _ _ hr hw h => set_plain_preserves hr hw h,
   fun _ _ _ _ hr hw h => set_preserves hr hw h,
   fun _ _ _ _ hr hw h => get_preserves hr hw h,
   fun _ _ _ _ _ _ h => mkDestMapping_establishes h⟩

theorem claim_C6_witness : reverse_invariant c6M ∧ wf_sources c6M :=
  claim_C6_reverse_plain_invariant.2.2.2 ["db1.col1", "db1.col2"] [] [] none none c6M rfl

/-- C7: whenever resolution succeeds and yields a mapped namespace — in
particular for a namespace reachable only through a wildcard mapping, whose
resolution has just been learned — un-mapping the produced target name on the
resulting state returns the original source namespace. -/
theorem claim_C7_roundtrip (m : DestMapping) (ns : String) (m' : DestMapping)
    (mp : MappedNamespace) (hr : reverse_invariant m) (hw : wf_sources m)
    (h : m.get ns = .ok (m', some mp)) :
    m'.unmap_namespace mp.name = .ok (some ns) := by
  unfold DestMapping.get at h
  by_cases he : match_set ns m.ex_namespace_set = true
  · rw [if_pos he] at h
    simp at h
  · rw [if_neg he] at h
    by_cases hn : m.wildcard = [] ∧ m.plain = []
    · rw [if_pos hn] at h
      simp only [Except.ok.injEq, Prod.mk.injEq, Option.some.injEq] at h
      obtain ⟨rfl, rfl⟩ := h
      unfold DestMapping.unmap_namespace
      rw [if_pos hn]
    · rw [if_neg hn] at h
      cases hp : alGet m.plain ns
      all_goals rw [hp] at h
      · rcases getScan_ok _ h with ⟨rfl, hnone⟩ | ⟨mp', hsome, hsp⟩
        · cases hnone
        · have hmp : mp = mp' := by injection hsome
          subst hmp
          obtain ⟨-, hsrc, hpl, hrp, -⟩ := set_plain_ok_cases hsp
          unfold DestMapping.unmap_namespace
          rw [if_neg (by rw [hpl]; exact fun hh => alInsert_ne_nil _ _ _ hh.2), hrp]
          simp only [alGet_alInsert_self]
          rw [if_pos hsrc]
      · next mp₀ =>
        simp only [Except.ok.injEq, Prod.mk.injEq, Option.some.injEq] at h
        obtain ⟨rfl, rfl⟩ := h
        have hmem := alGet_mem hp
        have hget := hr _ hmem
        have hne : ns ≠ "" := hw _ (alGet_mem hget)
        unfold DestMapping.unmap_namespace
        rw [if_neg hn]
        simp only at hget
        simp only [hget]
        rw [if_pos hne]

theorem claim_C7_witness :
    c7M'.unmap_namespace "db_new_123.foo" = .ok (some "db_123.foo") :=
  claim_C7_roundtrip c7M "db_123.foo" c7M' ⟨"db_new_123.foo", none, none⟩
    (by decide) (by decide) (by decide)

/-- C5: mapping two distinct sources to one target fails with
`InvalidConfiguration`: at construction for two explicit mappings with the
same target; in general whenever `set_plain` would overwrite a reverse entry
pointing at a different source; and at first resolution when a learned
wildcard resolution produces an already-taken target. -/
theorem claim_C5_injectivity :
    mkDestMapping [] []
        [("db1.col1", .plainStr "newdb.newcol"), ("db2.col1", .plainStr "newdb.newcol")]
        none none = .error .invalidConfiguration ∧
    (∀ (m : DestMapping) (src : String) (mp : MappedNamespace) (s' : String),
        alGet m.reverse_plain mp.name = some s' → s' ≠ "" → s' ≠ src →
        set_plain m src mp = .error .invalidConfiguration) ∧
    (okFst ((okOr (mkDestMapping [] []
          [("db*.col1", .plainStr "newdb.newcol*"), ("db*.col2", .plainStr "newdb.newcol*")]
          none none) {}).map_namespace "db1.col1") {}).map_namespace "db1.col2"
      = .error .invalidConfiguration := by
  refine ⟨by decide, ?_, by decide⟩
  intro m src mp s' hg hne hns
  simp only [set_plain, hg]
  rw [if_pos (by simp [hne, hns])]

theorem claim_C5_witness :
    set_plain c5M "z.w" ⟨"t.c", none, none⟩ = .error .invalidConfiguration :=
  claim_C5_injectivity.2.1 c5M "z.w" ⟨"t.c", none, none⟩ "a.b" (by decide)
    (by decide) (by decide)

/-- C9: a namespace matching the exclusion set resolves to absent regardless
of any other configuration, and `map_namespace` likewise; while with only an
exclusion set configured, `unmap_namespace` is the identity. -/
theorem claim_C9_exclusion :
    (∀ (m : DestMapping) (ns : String), match_set ns m.ex_namespace_set = true →
        m.get ns = .ok (m, none) ∧ m.map_namespace ns = .ok (m, none)) ∧
    (∀ (exs : List String) (ns : String) (m : DestMapping),
        mkDestMapping [] exs [] none none = .ok m →
        m.unmap_namespace ns = .ok (some ns)) := by
  constructor
  · intro m ns he
    have hget : m.get ns = .ok (m, none) := by
      unfold DestMapping.get
      rw [if_pos he]
    refine ⟨hget, ?_⟩
    unfold DestMapping.map_namespace
    rw [hget]
    rfl
  · intro exs ns m h
    simp only [mkDestMapping, List.foldl_nil, List.foldlM_nil, pure, Except.pure,
      Except.ok.injEq] at h
    subst h
    rfl

theorem claim_C9_witness :
    ((okOr (mkDestMapping [] ["ex.*"] [] none none) {}).map_namespace "ex.clude"
        = .ok (okOr (mkDestMapping [] ["ex.*"] [] none none) {}, none)) ∧
    (okOr (mkDestMapping [] ["ex.*"] [] none none) {}).unmap_namespace "ex.clude"
        = .ok (some "ex.clude") :=
  ⟨(claim_C9_exclusion.1 (okOr (mkDestMapping [] ["ex.*"] [] none none) {})
      "ex.clude" (by decide)).2,
   claim_C9_exclusion.2 ["ex.*"] "ex.clude" _ rfl⟩

/-- C10: if the wildcard table holds an entry whose target name contains no
`*`, then un-mapping a target that matches that name (and is not yet in
`reverse_plain`) raises: the substitution asks for capture group 1 of a
pattern that has no groups, an `IndexError`. -/
theorem claim_C10_unmap_raises (m : DestMapping) (t w : String) (mp : MappedNamespace)
    (ws₁ ws₂ : List (String × MappedNamespace))
    (hws : m.wildcard = ws₁ ++ (w, mp) :: ws₂)
    (hskip : ∀ e ∈ ws₁, nsMatch t (Prod.snd e).name = none)
    (hnostar : '*' ∉ mp.name.data)
    (hmatch : (nsMatch t mp.name).isSome)
    (hrp : alGet m.reverse_plain t = none) :
    m.unmap_namespace t = .error .indexError := by
  unfold DestMapping.unmap_namespace
  rw [if_neg (by rw [hws]; exact fun hh => by simp at hh)]
  rw [hrp, hws, unmapScan_skip hskip]
  obtain ⟨gs, hgs⟩ := Option.isSome_iff_exists.mp hmatch
  have hnil : gs = [] :=
    rmatch_no_star (compileNs_no_star hnostar) _ _ hgs
  subst hnil
  simp only [unmapScan, hgs]
  rfl

theorem claim_C10_witness : c10M.unmap_namespace "other.fixed" = .error .indexError :=
  claim_C10_unmap_raises c10M "other.fixed" "db.*" ⟨"other.fixed", none, none⟩ [] []
    (by decide) (by decide) (by decide) (by decide) (by decide)

/-- C1: the global default include fields supplied at construction are
recorded on the mapper, yet `fields` of a namespace that resolves to a
`MappedNamespace` carrying no field lists of its own returns `(None, None)`
rather than the global defaults, and `projection` accordingly returns the
caller's (absent) projection instead of the mandatory field set the spec and
the repository's own tests expect. -/
theorem claim_C1_fields_ignore_global_defaults :
    c1M.include_fields = some ["foo", "nested.field"] ∧
    (c1M.fields "db.foo").map (fun r => r.2) = .ok (none, none) ∧
    (c1M.projection "db.foo" none).map (fun r => r.2) = .ok none := by
  refine ⟨rfl, by decide, by decide⟩

/-- C2 counterexample: `"ex.clude"` resolves to absent (it matches the
exclusion set), yet `projection` with a non-empty caller projection returns
that projection unchanged, not absent. -/
theorem claim_C2_counterexample :
    (c2M.projection "ex.clude" (some [("a", 1)])).map (fun r => r.2) =
      .ok (some [("a", 1)]) ∧
    decide ((c2M.projection "ex.clude" (some [("a", 1)])).map (fun r => r.2) =
      .ok none) = false := by
  refine ⟨by decide, by decide⟩

/-- C2 amended: when the source namespace resolves to absent, `projection`
returns the caller's projection unchanged — which is absent only when the
caller's projection is itself absent. -/
theorem claim_C2_amended (m : DestMapping) (ns : String) (m' : DestMapping)
    (p : Option (List (String × Nat))) (h : m.get ns = .ok (m', none)) :
    m.projection ns p = .ok (m', p) := by
  unfold DestMapping.projection DestMapping.fields
  simp [h, optTruthy]

theorem claim_C2_witness :
    c2M.projection "ex.clude" (some [("b", 0)]) = .ok (c2M, some [("b", 0)]) :=
  claim_C2_amended c2M "ex.clude" c2M (some [("b", 0)]) (by decide)

/-- C3: although the wildcard mapping covers everything under `db_123`
(second conjunct: a collection there resolves to target database
`db_new_123`), `map_db "db_123"` on the freshly constructed mapper returns
the empty list: the forced `get "db_123.$cmd"` never seeds `plain_db`,
because `set_plain` skips `plain_db` seeding for `$cmd` namespaces (and the
unescaped `$` in the wildcard `$cmd` pattern prevents the match as well). -/
theorem claim_C3_map_db_not_seeded :
    (c3M.map_db "db_123").map (fun r => r.2) = .ok [] ∧
    (c3M.map_namespace "db_123.foo").map (fun r => r.2) = .ok (some "db_new_123.foo") := by
  refine ⟨by decide, by decide⟩

/-- C4 counterexample: a file whose contents parse as valid JSON of the
wrong shape — the empty array — makes `init` raise `IndexError` at
`data[0]`, so `load()` is not exception-free for every file contents. -/
theorem claim_C4_counterexample :
    OplogProgress.init ⟨true, []⟩ (some (.jsonData (.jarr []))) = .error .indexError := by
  decide

/-- C4 amended: a missing, zero-length, or unparseable progress file is
tolerated — `init` logs and returns normally with the table unchanged (hence
empty for a fresh store) — but shape errors in validly-parsed JSON are not
caught: an empty JSON array raises `IndexError`. -/
theorem claim_C4_amended :
    (∀ (p : OplogProgress), p.init none = .ok p ∧ p.init (some .emptyFile) = .ok p ∧
        p.init (some .invalidJson) = .ok p) ∧
    OplogProgress.init ⟨true, []⟩ (some (.jsonData (.jarr []))) = .error .indexError := by
  constructor
  · intro p
    by_cases hf : p.hasFile <;> simp [OplogProgress.init, hf]
  · decide

theorem ts_roundtrip (t : Timestamp) (h : t.inc < 4294967296) :
    long_to_bson_ts (bson_ts_to_long t) = t := by
  obtain ⟨a, b⟩ := t
  simp only [bson_ts_to_long, long_to_bson_ts, Timestamp.mk.injEq] at h ⊢
  constructor <;> omega

theorem parsePair_saved (n : JValue) (ts : Timestamp) (hn : n.isArr = false)
    (hinc : ts.inc < 4294967296) :
    parsePair (.jarr [n, .jnum (bson_ts_to_long ts)]) = .ok (n, ts) := by
  simp only [parsePair, hn, Bool.false_eq_true, if_false, ts_roundtrip ts hinc]

theorem mapM_parsePair_saved (l : List (JValue × Timestamp))
    (h : ∀ kv ∈ l, (Prod.fst kv).isArr = false ∧ (Prod.snd kv).inc < 4294967296) :
    (l.map (fun nts => JValue.jarr [nts.1, .jnum (bson_ts_to_long nts.2)])).mapM parsePair
      = .ok l := by
  induction l with
  | nil => rfl
  | cons kv rest ih =>
    obtain ⟨hn, hinc⟩ := h kv (List.mem_cons_self _ _)
    simp only [List.map_cons, List.mapM_cons, parsePair_saved kv.1 kv.2 hn hinc,
      ih (fun x hx => h x (List.mem_cons_of_mem _ hx)), exBindOk]
    rfl

theorem alGet_append_left_none [DecidableEq κ] {l₁ : List (κ × α)} {k : κ}
    (h : alGet l₁ k = none) (l₂ : List (κ × α)) :
    alGet (l₁ ++ l₂) k = alGet l₂ k := by
  induction l₁ with
  | nil => rfl
  | cons p rest ih =>
    obtain ⟨k', v'⟩ := p
    by_cases hk : k' = k
    · simp [alGet, hk] at h
    · simp only [alGet, if_neg hk] at h
      simp only [List.cons_append, alGet, if_neg hk]
      exact ih h

theorem alInsert_of_get_none [DecidableEq κ] {l : List (κ × α)} {k : κ}
    (h : alGet l k = none) (v : α) : alInsert l k v = l ++ [(k, v)] := by
  induction l with
  | nil => rfl
  | cons p rest ih =>
    obtain ⟨k', v'⟩ := p
    by_cases hk : k' = k
    · simp [alGet, hk] at h
    · simp only [alGet, if_neg hk] at h
      simp only [alInsert, if_neg hk, List.cons_append, List.cons.injEq, true_and]
      exact ih h

theorem foldl_alInsert_fresh [DecidableEq κ] :
    ∀ (l acc : List (κ × α)), (∀ kv ∈ l, alGet acc (Prod.fst kv) = none) →
      (l.map Prod.fst).Nodup →
      l.foldl (fun acc nv => alInsert acc nv.1 nv.2) acc = acc ++ l := by
  intro l
  induction l with
  | nil => intro acc _ _; simp
  | cons kv rest ih =>
    intro acc h hd
    simp only [List.map_cons, List.nodup_cons] at hd
    have hfresh := h kv (List.mem_cons_self _ _)
    simp only [List.foldl_cons, alInsert_of_get_none hfresh]
    rw [ih (acc ++ [kv]) ?_ hd.2]
    · simp
    · intro x hx
      rw [alGet_append_left_none (h x (List.mem_cons_of_mem _ hx))]
      have hne : (Prod.fst kv) ≠ (Prod.fst x) := by
        intro hh
        apply hd.1
        rw [hh]
        exact List.mem_map_of_mem _ hx
      simp [alGet, hne]

/-- C8: for every non-empty checkpoint table with well-formed entries
(hashable keys, counters fitting in 32 bits, distinct stream names —
guaranteed for a Python dict of BSON timestamps), `save()` followed by a
fresh store's `load()` of the written file reproduces the table exactly,
in the single-entry legacy form and in the multi-entry form alike. -/
theorem claim_C8_save_load_roundtrip (d : List (JValue × Timestamp))
    (hne : d ≠ [])
    (hkeys : ∀ kv ∈ d, (Prod.fst kv).isArr = false)
    (hinc : ∀ kv ∈ d, (Prod.snd kv).inc < 4294967296)
    (hnodup : (d.map Prod.fst).Nodup) :
    OplogProgress.init ⟨true, []⟩ (OplogProgress.save ⟨true, d⟩) = .ok ⟨true, d⟩ := by
  have hboth : ∀ kv ∈ d, (Prod.fst kv).isArr = false ∧ (Prod.snd kv).inc < 4294967296 :=
    fun kv hkv => ⟨hkeys kv hkv, hinc kv hkv⟩
  have hfold := foldl_alInsert_fresh d ([] : List (JValue × Timestamp))
    (fun kv _ => rfl) hnodup
  cases d with
  | nil => exact absurd rfl hne
  | cons kv₁ rest =>
    cases rest with
    | nil =>
      obtain ⟨n, ts⟩ := kv₁
      obtain ⟨hn, hin⟩ := hboth (n, ts) (List.mem_cons_self _ _)
      have hone : ([JValue.jarr [n, .jnum (bson_ts_to_long ts)]] : List JValue).mapM parsePair
          = .ok [(n, ts)] := by
        rw [List.mapM_cons, parsePair_saved n ts hn hin]
        rfl
      rw [show OplogProgress.init ⟨true, []⟩ (OplogProgress.save ⟨true, [(n, ts)]⟩)
          = (match ((if JValue.isArr n = true
                then ([n, .jnum (bson_ts_to_long ts)] : List JValue)
                else [JValue.jarr [n, .jnum (bson_ts_to_long ts)]]) : List JValue).mapM
                parsePair with
             | .error e => .error e
             | .ok pairs =>
               .ok ⟨true, pairs.foldl (fun acc nv => alInsert acc nv.1 nv.2) []⟩)
          from rfl]
      rw [if_neg (by simp [hn]), hone]
      rfl
    | cons kv₂ rest₂ =>
      rw [show OplogProgress.init ⟨true, []⟩ (OplogProgress.save ⟨true, kv₁ :: kv₂ :: rest₂⟩)
          = (match ((kv₁ :: kv₂ :: rest₂).map
                (fun nts => JValue.jarr [nts.1, .jnum (bson_ts_to_long nts.2)])).mapM
                parsePair with
             | .error e => .error e
             | .ok pairs =>
               .ok ⟨true, pairs.foldl (fun acc nv => alInsert acc nv.1 nv.2) []⟩)
          from rfl]
      rw [mapM_parsePair_saved _ hboth]
      exact congrArg (fun l => Except.ok (⟨true, l⟩ : OplogProgress))
        (hfold.trans (List.nil_append _))

theorem claim_C8_witness :
    OplogProgress.init ⟨true, []⟩ (OplogProgress.save ⟨true, [(.jstr "rs", ⟨12, 34⟩)]⟩)
        = .ok ⟨true, [(.jstr "rs", ⟨12, 34⟩)]⟩ ∧
    OplogProgress.init ⟨true, []⟩
        (OplogProgress.save ⟨true, [(.jstr "rs", ⟨12, 34⟩), (.jstr "rs2", ⟨56, 78⟩)]⟩)
        = .ok ⟨true, [(.jstr "rs", ⟨12, 34⟩), (.jstr "rs2", ⟨56, 78⟩)]⟩ :=
  ⟨claim_C8_save_load_roundtrip _ (by decide) (by decide) (by decide) (by decide),
   claim_C8_save_load_roundtrip _ (by decide) (by decide) (by decide) (by decide)⟩

end MongoConnector
